import Mathlib

/-!
Verification of cmdcache (`main.go`): a command-line memoization tool that
runs a command, multiplexes its stdout/stderr into timestamped records,
serializes them with msgpack into a gzip-compressed cache file, and can
later replay the recorded byte stream and exit code.

We shallowly embed the program over lists of bytes (`Nat` values below 256).
Stateful parts (the `plex` consumer goroutine, the replay loop, the tail of
`main` after `cmd.Wait()`) become pure functions or event traces.
-/

namespace CmdCache

/-- The `BufRecord` struct from main.go (lines 36-40): `T` elapsed milliseconds,
`Id` the stream tag (1 stdout, 2 stderr, 127 exit status), `Buf` payload
bytes. Go `int` becomes `Int`; `[]byte` becomes `List Nat` with entries
below 256. -/
structure BufRecord where
  T : Int
  Id : Int
  Buf : List Nat
  deriving DecidableEq, Repr

/-! ## msgpack encoding

`plex` (main.go lines 89-104) serializes each `BufRecord` with
`msgpack.Marshal` (github.com/vmihailenco/msgpack).  That library encodes a
tagless struct as a fixmap whose keys are the field names in declaration
order, integers in the shortest msgpack form (non-negative values through
the unsigned forms), and `[]byte` through the bin8/bin16/bin32 forms.
We embed exactly that wire format for this struct. -/

/-- Big-endian base-256 digits of `n`, exactly `k` bytes (the truncating
`byte(v >> 8*i)` writes of the msgpack library). -/
def beBytes : Nat → Nat → List Nat
  | 0, _ => []
  | k + 1, n => beBytes k (n / 256) ++ [n % 256]

/-- msgpack encoding of a non-negative integer (`Encoder.EncodeUint`):
positive fixint, then uint8/uint16/uint32/uint64. -/
def encUint (n : Nat) : List Nat :=
  if n ≤ 0x7f then [n]
  else if n ≤ 0xff then 0xcc :: beBytes 1 n
  else if n ≤ 0xffff then 0xcd :: beBytes 2 n
  else if n ≤ 0xffffffff then 0xce :: beBytes 4 n
  else 0xcf :: beBytes 8 n

/-- msgpack encoding of a Go `int` (`Encoder.EncodeInt`): non-negative
values through `EncodeUint`, negative values through negative fixint and
the int8/int16/int32/int64 forms (bytes are the twos-complement form of the
value, produced here by adding the relevant power of two). -/
def encInt (n : Int) : List Nat :=
  if 0 ≤ n then encUint n.toNat
  else if -32 ≤ n then [(n + 256).toNat]
  else if -128 ≤ n then [0xd0, (n + 256).toNat]
  else if -32768 ≤ n then 0xd1 :: beBytes 2 (n + 65536).toNat
  else if -2147483648 ≤ n then 0xd2 :: beBytes 4 (n + 4294967296).toNat
  else 0xd3 :: beBytes 8 (n + 18446744073709551616).toNat

/-- msgpack encoding of a `[]byte` (`Encoder.EncodeBytes`):
bin8/bin16/bin32 header with the length, then the raw bytes. -/
def encBytes (bs : List Nat) : List Nat :=
  if bs.length ≤ 0xff then 0xc4 :: beBytes 1 bs.length ++ bs
  else if bs.length ≤ 0xffff then 0xc5 :: beBytes 2 bs.length ++ bs
  else 0xc6 :: beBytes 4 bs.length ++ bs

/-- Marshalling of a `BufRecord` by `msgpack.Marshal` (the write in `plex`, main.go line
93): a 3-entry fixmap `0x83` with fixstr keys "T" (`0xa1 0x54`), "Id"
(`0xa2 0x49 0x64`), "Buf" (`0xa3 0x42 0x75 0x66`) in field order. -/
def encodeRecord (r : BufRecord) : List Nat :=
  [0x83, 0xa1, 0x54] ++ encInt r.T
    ++ [0xa2, 0x49, 0x64] ++ encInt r.Id
    ++ [0xa3, 0x42, 0x75, 0x66] ++ encBytes r.Buf

/-- The byte stream obtained by marshalling records one after the other,
as `plex` appends each `msgpack.Marshal` output to the sink. -/
def encodeRecords (rs : List BufRecord) : List Nat :=
  (rs.map encodeRecord).flatten

/-! ## msgpack decoding

The replay branch of `main` (lines 140-168) decodes with
`Decoder.DecodeInterface`, which returns dynamically typed values: fixint
bytes come back as Go `int8`, the uint8/16/32/64 and int8/16/32/64 forms
at their own widths, nil as Go `nil`, booleans as `bool`, the float forms
as `float32`/`float64`, bin as `[]byte`, the string forms as `string`,
arrays as `[]interface{}`, maps with string keys as
`map[string]interface{}`, and extension payloads through the ext header.
`MPValue` is that dynamic result; floats and extension payloads are
carried as their raw bits/bytes (their numeric content never survives
the type assertions of the replay loop).  The decoder below covers the
whole surface, so `none` is returned exactly where the library reports a
decode error: exhausted input, the reserved code 0xc1, a payload or
length truncated by end of input, a map key that is not a string (the
library reads keys with `DecodeString`, which accepts the str and bin
forms and nil), or a nested failure of one of these. -/

inductive MPValue where
  | nil
  | bool (b : Bool)
  | i8 (n : Int)
  | i16 (n : Int)
  | i32 (n : Int)
  | i64 (n : Int)
  | u8 (n : Nat)
  | u16 (n : Nat)
  | u32 (n : Nat)
  | u64 (n : Nat)
  | f32 (bits : Nat)
  | f64 (bits : Nat)
  | bin (bs : List Nat)
  | str (s : String)
  | arr (vs : List MPValue)
  | map (kvs : List (String × MPValue))
  | ext (typ : Int) (data : List Nat)
  deriving Repr

/-- Take exactly `n` bytes from the front of a stream. -/
def readN : Nat → List Nat → Option (List Nat × List Nat)
  | 0, bs => some ([], bs)
  | _ + 1, [] => none
  | n + 1, b :: bs =>
    match readN n bs with
    | some (tk, rest) => some (b :: tk, rest)
    | none => none

/-- Read `k` bytes as a big-endian base-256 number. -/
def readBE (k : Nat) (bs : List Nat) : Option (Nat × List Nat) :=
  match readN k bs with
  | some (ds, rest) => some (ds.foldl (fun a b => a * 256 + b) 0, rest)
  | none => none

/-- Go `string(bs)` for the ASCII byte lists this program produces. -/
def stringOfBytes (bs : List Nat) : String :=
  String.mk (bs.map Char.ofNat)

/-- Decode one map key the way the library reads it (`DecodeString`):
fixstr and str8/16/32, plus the bin forms and nil, which its shared
byte-length reader also accepts; any other leading code is a decode
error.  The keys this program writes are always fixstr. -/
def readKey (bs : List Nat) : Option (String × List Nat) :=
  match bs with
  | [] => none
  | c :: rest =>
    if 0xa0 ≤ c ∧ c ≤ 0xbf then
      match readN (c - 0xa0) rest with
      | some (sb, r2) => some (stringOfBytes sb, r2)
      | none => none
    else if c = 0xc0 then some ("", rest)
    else if c = 0xc4 ∨ c = 0xd9 then
      match readBE 1 rest with
      | some (len, r2) =>
        match readN len r2 with
        | some (sb, r3) => some (stringOfBytes sb, r3)
        | none => none
      | none => none
    else if c = 0xc5 ∨ c = 0xda then
      match readBE 2 rest with
      | some (len, r2) =>
        match readN len r2 with
        | some (sb, r3) => some (stringOfBytes sb, r3)
        | none => none
      | none => none
    else if c = 0xc6 ∨ c = 0xdb then
      match readBE 4 rest with
      | some (len, r2) =>
        match readN len r2 with
        | some (sb, r3) => some (stringOfBytes sb, r3)
        | none => none
      | none => none
    else none

/-- Twos-complement reading of a `k`-bit value. -/
def signed (k : Nat) (n : Nat) : Int :=
  if n < 2 ^ (k - 1) then (n : Int) else (n : Int) - 2 ^ k

mutual

/-- One `Decoder.DecodeInterface` step over every msgpack form, fuelled
for the nested container recursion.  Since each recursive call follows
the consumption of at least one byte, fuel `length + 1` (used by the
`decodeValue` wrapper) can never run out; the fuel-exhaustion branch is
unreachable from the wrapper.  The only inputs mapped to `none` are the
library's decode errors: empty input, the reserved code 0xc1, truncated
lengths or payloads, and map keys rejected by `DecodeString`. -/
def decodeValueF : Nat → List Nat → Option (MPValue × List Nat)
  | 0, _ => none
  | _ + 1, [] => none
  | fuel + 1, c :: rest =>
    if c ≤ 0x7f then some (.i8 (Int.ofNat c), rest)
    else if c ≤ 0x8f then
      match decodeKVsF fuel (c - 0x80) rest with
      | some (kvs, r2) => some (.map kvs, r2)
      | none => none
    else if c ≤ 0x9f then
      match decodeItemsF fuel (c - 0x90) rest with
      | some (vs, r2) => some (.arr vs, r2)
      | none => none
    else if c ≤ 0xbf then
      match readN (c - 0xa0) rest with
      | some (sb, r2) => some (.str (stringOfBytes sb), r2)
      | none => none
    else if c = 0xc0 then some (.nil, rest)
    else if c = 0xc2 then some (.bool false, rest)
    else if c = 0xc3 then some (.bool true, rest)
    else if c = 0xc4 then
      match readBE 1 rest with
      | some (len, r2) =>
        match readN len r2 with
        | some (data, r3) => some (.bin data, r3)
        | none => none
      | none => none
    else if c = 0xc5 then
      match readBE 2 rest with
      | some (len, r2) =>
        match readN len r2 with
        | some (data, r3) => some (.bin data, r3)
        | none => none
      | none => none
    else if c = 0xc6 then
      match readBE 4 rest with
      | some (len, r2) =>
        match readN len r2 with
        | some (data, r3) => some (.bin data, r3)
        | none => none
      | none => none
    else if c = 0xc7 then
      match readBE 1 rest with
      | some (len, r2) =>
        match r2 with
        | t :: r3 =>
          match readN len r3 with
          | some (data, r4) => some (.ext (signed 8 t) data, r4)
          | none => none
        | [] => none
      | none => none
    else if c = 0xc8 then
      match readBE 2 rest with
      | some (len, r2) =>
        match r2 with
        | t :: r3 =>
          match readN len r3 with
          | some (data, r4) => some (.ext (signed 8 t) data, r4)
          | none => none
        | [] => none
      | none => none
    else if c = 0xc9 then
      match readBE 4 rest with
      | some (len, r2) =>
        match r2 with
        | t :: r3 =>
          match readN len r3 with
          | some (data, r4) => some (.ext (signed 8 t) data, r4)
          | none => none
        | [] => none
      | none => none
    else if c = 0xca then
      match readBE 4 rest with
      | some (bits, r2) => some (.f32 bits, r2)
      | none => none
    else if c = 0xcb then
      match readBE 8 rest with
      | some (bits, r2) => some (.f64 bits, r2)
      | none => none
    else if c = 0xcc then
      match readBE 1 rest with
      | some (n, r2) => some (.u8 n, r2)
      | none => none
    else if c = 0xcd then
      match readBE 2 rest with
      | some (n, r2) => some (.u16 n, r2)
      | none => none
    else if c = 0xce then
      match readBE 4 rest with
      | some (n, r2) => some (.u32 n, r2)
      | none => none
    else if c = 0xcf then
      match readBE 8 rest with
      | some (n, r2) => some (.u64 n, r2)
      | none => none
    else if c = 0xd0 then
      match readBE 1 rest with
      | some (n, r2) => some (.i8 (signed 8 n), r2)
      | none => none
    else if c = 0xd1 then
      match readBE 2 rest with
      | some (n, r2) => some (.i16 (signed 16 n), r2)
      | none => none
    else if c = 0xd2 then
      match readBE 4 rest with
      | some (n, r2) => some (.i32 (signed 32 n), r2)
      | none => none
    else if c = 0xd3 then
      match readBE 8 rest with
      | some (n, r2) => some (.i64 (signed 64 n), r2)
      | none => none
    else if c = 0xd4 then
      match rest with
      | t :: r2 =>
        match readN 1 r2 with
        | some (data, r3) => some (.ext (signed 8 t) data, r3)
        | none => none
      | [] => none
    else if c = 0xd5 then
      match rest with
      | t :: r2 =>
        match readN 2 r2 with
        | some (data, r3) => some (.ext (signed 8 t) data, r3)
        | none => none
      | [] => none
    else if c = 0xd6 then
      match rest with
      | t :: r2 =>
        match readN 4 r2 with
        | some (data, r3) => some (.ext (signed 8 t) data, r3)
        | none => none
      | [] => none
    else if c = 0xd7 then
      match rest with
      | t :: r2 =>
        match readN 8 r2 with
        | some (data, r3) => some (.ext (signed 8 t) data, r3)
        | none => none
      | [] => none
    else if c = 0xd8 then
      match rest with
      | t :: r2 =>
        match readN 16 r2 with
        | some (data, r3) => some (.ext (signed 8 t) data, r3)
        | none => none
      | [] => none
    else if c = 0xd9 then
      match readBE 1 rest with
      | some (len, r2) =>
        match readN len r2 with
        | some (sb, r3) => some (.str (stringOfBytes sb), r3)
        | none => none
      | none => none
    else if c = 0xda then
      match readBE 2 rest with
      | some (len, r2) =>
        match readN len r2 with
        | some (sb, r3) => some (.str (stringOfBytes sb), r3)
        | none => none
      | none => none
    else if c = 0xdb then
      match readBE 4 rest with
      | some (len, r2) =>
        match readN len r2 with
        | some (sb, r3) => some (.str (stringOfBytes sb), r3)
        | none => none
      | none => none
    else if c = 0xdc then
      match readBE 2 rest with
      | some (n, r2) =>
        match decodeItemsF fuel n r2 with
        | some (vs, r3) => some (.arr vs, r3)
        | none => none
      | none => none
    else if c = 0xdd then
      match readBE 4 rest with
      | some (n, r2) =>
        match decodeItemsF fuel n r2 with
        | some (vs, r3) => some (.arr vs, r3)
        | none => none
      | none => none
    else if c = 0xde then
      match readBE 2 rest with
      | some (n, r2) =>
        match decodeKVsF fuel n r2 with
        | some (kvs, r3) => some (.map kvs, r3)
        | none => none
      | none => none
    else if c = 0xdf then
      match readBE 4 rest with
      | some (n, r2) =>
        match decodeKVsF fuel n r2 with
        | some (kvs, r3) => some (.map kvs, r3)
        | none => none
      | none => none
    else if 0xe0 ≤ c then some (.i8 ((c : Int) - 256), rest)
    else none

/-- Decode `n` array elements, each a recursive `DecodeInterface`. -/
def decodeItemsF : Nat → Nat → List Nat → Option (List MPValue × List Nat)
  | 0, _, _ => none
  | _ + 1, 0, bs => some ([], bs)
  | fuel + 1, n + 1, bs =>
    match decodeValueF fuel bs with
    | some (v, r2) =>
      match decodeItemsF fuel n r2 with
      | some (vs, r3) => some (v :: vs, r3)
      | none => none
    | none => none

/-- Decode `n` key-value pairs of a map: each key through `readKey`
(`DecodeString`), each value a recursive `DecodeInterface`. -/
def decodeKVsF : Nat → Nat → List Nat → Option (List (String × MPValue) × List Nat)
  | 0, _, _ => none
  | _ + 1, 0, bs => some ([], bs)
  | fuel + 1, n + 1, bs =>
    match readKey bs with
    | some (k, r1) =>
      match decodeValueF fuel r1 with
      | some (v, r2) =>
        match decodeKVsF fuel n r2 with
        | some (kvs, r3) => some ((k, v) :: kvs, r3)
        | none => none
      | none => none
    | none => none

end

/-- One step of `Decoder.DecodeInterface` on a byte stream.  Every
successful decode and every recursion step consumes at least one byte,
so `length + 1` fuel always suffices and the result is `none` exactly on
the decode errors listed at `decodeValueF`. -/
def decodeValue (bs : List Nat) : Option (MPValue × List Nat) :=
  decodeValueF (bs.length + 1) bs

/-! ## The replay loop (main.go lines 140-168)

`main` repeatedly calls `DecodeInterface`; a decode error ends the loop via
`panic(Exit{exitCode})`, which `handleExit` turns into `os.Exit(exitCode)`
after the deferred closes.  A decoded value is asserted to be a
`map[string]interface{}`, its "Id" entry to be an `int8`, its "Buf" entry
to be a `[]byte`; a failed assertion is a Go runtime panic (modelled as
`ReplayOutcome.goPanic`).  "T" flows only through `DurationOf`. -/

/-- Go map indexing for the decoded `map[string]interface{}`: a map built
by inserting the pairs in order, so a later duplicate key overrides an
earlier one; a missing key yields `none` (Go nil). -/
def goMapGet (k : String) : List (String × MPValue) → Option MPValue
  | [] => none
  | (k2, v) :: rest =>
    match goMapGet k rest with
    | some v2 => some v2
    | none => if k2 = k then some v else none

/-- Model of the `fmt.Sscanf(s, "%d", &d)` step of `DurationOf` applied
to a string value (whose `%v` rendering is the string itself): skip
leading ASCII whitespace, an optional sign, then read decimal digits; a
missing digit means the scan fails and the scanned variable keeps its
zero value. -/
def scanIntStr (s : String) : Int :=
  let cs := s.data.dropWhile fun ch =>
    ch == ' ' || ch == '\t' || ch == '\n' || ch == '\r'
      || ch == Char.ofNat 11 || ch == Char.ofNat 12
  let sgn : Bool × List Char :=
    match cs with
    | '-' :: r2 => (true, r2)
    | '+' :: r2 => (false, r2)
    | _ => (false, cs)
  let ds := sgn.2.takeWhile Char.isDigit
  if ds.isEmpty then 0
  else
    let v : Nat := ds.foldl (fun a c => a * 10 + (c.toNat - 48)) 0
    if sgn.1 then -(v : Int) else (v : Int)

/-- Model of `DurationOf` (main.go lines 75-81): it formats the dynamic
value with `%v` and scans it back with `%d`.  For every integer width
this is the identity; for a string value the scan reads its leading
digits; for a missing key (`<nil>`), a boolean (`true`/`false`), a byte
slice, an array or a map (renderings that start with a non-digit) the
scan fails and the result stays 0.  A float would be scanned from its
shortest-decimal rendering; its digits are not reconstructed from the
bits here, and no value this development evaluates `DurationOf` on
carries a float (the program only ever writes integer "T" fields). -/
def DurationOf : Option MPValue → Int
  | some (.i8 n) => n
  | some (.i16 n) => n
  | some (.i32 n) => n
  | some (.i64 n) => n
  | some (.u8 n) => n
  | some (.u16 n) => n
  | some (.u32 n) => n
  | some (.u64 n) => n
  | some (.str s) => scanIntStr s
  | _ => 0

/-- The type assertions of main.go lines 146-148 applied to one decoded
value: requires a map whose "Id" entry is an `int8` and whose "Buf" entry
is a `[]byte`, and reads "T" through `DurationOf`.  `none` is a Go runtime
panic, not a decode error. -/
def replayStep (v : MPValue) : Option (Int × List Nat × Int) :=
  match v with
  | .map kvs =>
    match goMapGet "Id" kvs, goMapGet "Buf" kvs with
    | some (.i8 id), some (.bin buf) => some (id, buf, DurationOf (goMapGet "T" kvs))
    | _, _ => none
  | _ => none

/-- Result of a replay run: bytes written to live stdout and stderr and
the process exit code, or a Go runtime panic (failed type assertion or
`buf[0]` on an empty exit payload). -/
inductive ReplayOutcome where
  | exit (stdout stderr : List Nat) (code : Int)
  | goPanic
  | fuelOut
  deriving DecidableEq, Repr

/-- The replay for-loop (main.go lines 142-169), fuelled by the number of
iterations (each decoded record consumes at least one byte, so
`length + 1` fuel always suffices).  A decode error returns the current
exit code; id 1 appends to stdout, id 2 to stderr, id 127 captures
`buf[0]` as the exit code and the loop continues; other ids fall through
the switch. -/
def replayLoop : Nat → List Nat → List Nat → List Nat → Int → ReplayOutcome
  | 0, _, _, _, _ => .fuelOut
  | fuel + 1, bs, out, err, code =>
    match decodeValue bs with
    | none => .exit out err code
    | some (v, rest) =>
      match replayStep v with
      | none => .goPanic
      | some (id, buf, _t) =>
        if id = 1 then replayLoop fuel rest (out ++ buf) err code
        else if id = 2 then replayLoop fuel rest out (err ++ buf) code
        else if id = 127 then
          match buf with
          | [] => .goPanic
          | b :: _ => replayLoop fuel rest out err (Int.ofNat b)
        else replayLoop fuel rest out err code

/-- Replay of a decompressed cache entry, starting from empty live
streams and exit code 0 (main.go line 141 `var exitCode int`). -/
def replay (bs : List Nat) : ReplayOutcome :=
  replayLoop (bs.length + 1) bs [] [] 0

/-- Codec-level view of the same loop: the sequence of
(tag, elapsed, payload) triples the decoder hands back, reassembled as
`BufRecord`s, up to the decode error that ends the stream.  `none` marks
a run that would hit a Go runtime panic instead of finishing. -/
def decodeRecordsLoop : Nat → List Nat → List BufRecord → Option (List BufRecord)
  | 0, _, _ => none
  | fuel + 1, bs, acc =>
    match decodeValue bs with
    | none => some acc.reverse
    | some (v, rest) =>
      match replayStep v with
      | none => none
      | some (id, buf, t) => decodeRecordsLoop fuel rest (⟨t, id, buf⟩ :: acc)

/-- All records decoded from a byte stream, in order. -/
def decodeRecords (bs : List Nat) : Option (List BufRecord) :=
  decodeRecordsLoop (bs.length + 1) bs []

/-- The dynamic value `DecodeInterface` returns for an integer written by
`encInt`: the form picked by the encoder decides the decoded width. -/
def goIntVal (n : Int) : MPValue :=
  if 0 ≤ n then
    if n ≤ 0x7f then .i8 n
    else if n ≤ 0xff then .u8 n.toNat
    else if n ≤ 0xffff then .u16 n.toNat
    else if n ≤ 0xffffffff then .u32 n.toNat
    else .u64 n.toNat
  else
    if -128 ≤ n then .i8 n
    else if -32768 ≤ n then .i16 n
    else if -2147483648 ≤ n then .i32 n
    else .i64 n

/-- The dynamic value a marshalled `BufRecord` decodes back to. -/
def recValue (r : BufRecord) : MPValue :=
  .map [("T", goIntVal r.T), ("Id", goIntVal r.Id), ("Buf", .bin r.Buf)]

/-! ## The plex consumer (main.go lines 89-104)

`plex` receives records from the channel, marshals each one (marshalling a
`BufRecord` cannot fail, so the `err == nil` guard always takes the write
path), writes it to the compressing sink, and on the record with
`Id == 127` sends on `finished` and returns.  We model its behaviour on
the whole arrival-ordered channel content as an event trace. -/

inductive PlexEvent where
  | encode (r : BufRecord)
  | signal
  deriving DecidableEq, Repr

/-- Event trace of `plex` on the channel contents in arrival order: each
record is encoded; after encoding a record with `Id = 127` it signals
`finished` and stops.  An exhausted list models the goroutine blocked on
an empty channel with nothing more ever sent. -/
def plexTrace : List BufRecord → List PlexEvent
  | [] => []
  | r :: rest =>
    .encode r :: (if r.Id = 127 then [.signal] else plexTrace rest)

/-- The records `plex` actually writes to the sink, in order. -/
def plexEncoded (l : List BufRecord) : List BufRecord :=
  (plexTrace l).filterMap fun e =>
    match e with
    | .encode r => some r
    | .signal => none

/-- The bytes `plex` hands to the gzip writer (the cache entry content
before compression; gzip is a transparent bijection over them). -/
def plexBytes (l : List BufRecord) : List Nat :=
  encodeRecords (plexEncoded l)

/-- Whether `plex` signalled the completion event. -/
def plexSignaled (l : List BufRecord) : Bool :=
  (plexTrace l).contains .signal

/-! ## The capture tail of main (main.go lines 214-238) -/

/-- Result of `cmd.Wait()` as the code inspects it: no error, an
`*exec.ExitError` carrying the platform wait status, or any other error
(for instance `Wait` after a failed `Start`), which the type assertion on
line 217 ignores. -/
inductive WaitResult where
  | ok
  | exitError (status : Int)
  | otherError
  deriving DecidableEq, Repr

/-- Exit code computation (main.go lines 216-226): starts at 0 and is
replaced by `status.ExitStatus()` only for an `*exec.ExitError`. -/
def exitCodeOf : WaitResult → Int
  | .ok => 0
  | .exitError s => s
  | .otherError => 0

/-- The terminal record sent on line 234:
`BufRecord{T: 0, Id: 127, Buf: []byte{byte(exitCode)}}`; Go `byte`
truncates the int to its low 8 bits. -/
def exitRecord (w : WaitResult) : BufRecord :=
  ⟨0, 127, [(exitCodeOf w % 256).toNat]⟩

/-- Whether lines 227-230 delete the cache entry: only in the
`*exec.ExitError` branch, and only when `-ve` was not given. -/
def removesEntry (w : WaitResult) (keepNeg : Bool) : Bool :=
  match w with
  | .exitError _ => !keepNeg
  | _ => false

inductive MainEvent where
  | removeEntry
  | sendRecord (r : BufRecord)
  | awaitFinished
  | returnCode (c : Int)
  deriving DecidableEq, Repr

/-- Event trace of main.go lines 215-238 after `cmd.Wait()` returns:
optionally remove the entry, send the terminal record on the channel,
block on `finished`, then leave with the exit code
(`panic(Exit{exitCode})`, which `handleExit` converts to
`os.Exit(exitCode)` after the deferred closes). -/
def mainTail (w : WaitResult) (keepNeg : Bool) : List MainEvent :=
  (if removesEntry w keepNeg then [.removeEntry] else [])
    ++ [.sendRecord (exitRecord w), .awaitFinished, .returnCode (exitCodeOf w)]

/-! ## Start failure (main.go lines 191-197)

When `cmd.Start()` fails the code removes the entry file and prints the
failure to stderr, but does not return: control falls through to the
consumer, the copy goroutines (whose pipes deliver nothing, the child
never ran), `cmd.Wait()` (an error that is not an `*exec.ExitError`, so
the exit code stays 0), the terminal-record send and the final
`panic(Exit{0})`. -/

structure StartFailOutcome where
  entryRemoved : Bool
  failureReported : Bool
  encoded : List BufRecord
  returned : Int
  deriving DecidableEq, Repr

/-- What a capture session does when the child fails to start: entry
removed, message printed, and the session still encodes the channel
content — which is just the terminal record for exit code 0 — into the
(already unlinked) sink before leaving with code 0. -/
def captureOnStartFailure : StartFailOutcome :=
  { entryRemoved := true
    failureReported := true
    encoded := plexEncoded [exitRecord .otherError]
    returned := exitCodeOf .otherError }

/-! ## Cache lookup (main.go lines 133-135) -/

/-- The freshness test: `os.Stat` succeeded and either `-ttl` is the
`-1` sentinel or the age in whole seconds (`now - modTime`, truncated to
seconds) is at most the ttl. -/
def cacheFresh (statOk : Bool) (ttl ageSeconds : Int) : Bool :=
  statOk && (decide (ttl = -1) || decide (ageSeconds ≤ ttl))

/-! ## Filesystem failures (main.go lines 136-139 and 171-172)

Both branches discard errors.  On the capture side `os.Create` failure
leaves `f = nil`; `(*os.File)` methods on a nil receiver return
`ErrInvalid` rather than panicking, gzip buffers the bytes and its
deferred `Close` error is ignored, the `MultiWriter` still tees every
chunk to the console, and the child runs and its code is returned — a
passthrough run with no cache entry.  On the replay side `os.Open`
failure leaves `f = nil`, `gzip.NewReader` then fails and returns a nil
`*gzip.Reader`, and the first `DecodeInterface` call dereferences that
nil pointer: a runtime panic that `handleExit` re-raises (it is not an
`Exit`), so the process crashes and the command is never executed. -/

inductive SessionOutcome where
  | replayed (r : ReplayOutcome)
  | captured
  | passthroughNoCache
  | crashed
  deriving DecidableEq, Repr

/-- The replay branch as a function of whether the entry file could be
opened (main.go line 136). -/
def replaySession (openOk : Bool) (entryBytes : List Nat) : SessionOutcome :=
  if openOk then .replayed (replay entryBytes) else .crashed

/-- The capture branch as a function of whether the entry file could be
created (main.go line 172). -/
def captureSessionFs (createOk : Bool) : SessionOutcome :=
  if createOk then .captured else .passthroughNoCache

/-! ## The cache key (main.go lines 128-131)

`digest := md5.Sum([]byte(strings.Join(args, " ")))` and
`filename := fmt.Sprintf("%x", digest) + ".ts"`.  We embed the full MD5
algorithm (RFC 1321) over byte lists so the key function is the real one;
Go converts the joined string to its UTF-8 bytes. -/

/-- UTF-8 encoding of one character (what `[]byte(s)` yields in Go). -/
def utf8Char (c : Char) : List Nat :=
  let n := c.toNat
  if n < 0x80 then [n]
  else if n < 0x800 then [0xc0 + n / 64, 0x80 + n % 64]
  else if n < 0x10000 then
    [0xe0 + n / 4096, 0x80 + n / 64 % 64, 0x80 + n % 64]
  else
    [0xf0 + n / 262144, 0x80 + n / 4096 % 64, 0x80 + n / 64 % 64, 0x80 + n % 64]

/-- Conversion `[]byte(s)`: the UTF-8 bytes of a Go string. -/
def utf8Bytes (s : String) : List Nat :=
  (s.data.map utf8Char).flatten

/-- Left rotation of a 32-bit word. -/
def rotl32 (x n : Nat) : Nat :=
  (x <<< n) % 4294967296 ||| x >>> (32 - n)

/-- The MD5 sine table `K` (RFC 1321). -/
def md5K : List Nat := [
  3614090360, 3905402710, 606105819, 3250441966,
  4118548399, 1200080426, 2821735955, 4249261313,
  1770035416, 2336552879, 4294925233, 2304563134,
  1804603682, 4254626195, 2792965006, 1236535329,
  4129170786, 3225465664, 643717713, 3921069994,
  3593408605, 38016083, 3634488961, 3889429448,
  568446438, 3275163606, 4107603335, 1163531501,
  2850285829, 4243563512, 1735328473, 2368359562,
  4294588738, 2272392833, 1839030562, 4259657740,
  2763975236, 1272893353, 4139469664, 3200236656,
  681279174, 3936430074, 3572445317, 76029189,
  3654602809, 3873151461, 530742520, 3299628645,
  4096336452, 1126891415, 2878612391, 4237533241,
  1700485571, 2399980690, 4293915773, 2240044497,
  1873313359, 4264355552, 2734768916, 1309151649,
  4149444226, 3174756917, 718787259, 3951481745]

/-- The MD5 per-round left-rotation amounts. -/
def md5S : List Nat := [
  7, 12, 17, 22, 7, 12, 17, 22, 7, 12, 17, 22, 7, 12, 17, 22,
  5, 9, 14, 20, 5, 9, 14, 20, 5, 9, 14, 20, 5, 9, 14, 20,
  4, 11, 16, 23, 4, 11, 16, 23, 4, 11, 16, 23, 4, 11, 16, 23,
  6, 10, 15, 21, 6, 10, 15, 21, 6, 10, 15, 21, 6, 10, 15, 21]

/-- Little-endian 32-bit word `j` of a 64-byte chunk. -/
def md5Word (chunk : List Nat) (j : Nat) : Nat :=
  chunk.getD (4 * j) 0 + 256 * chunk.getD (4 * j + 1) 0
    + 65536 * chunk.getD (4 * j + 2) 0 + 16777216 * chunk.getD (4 * j + 3) 0

/-- One MD5 round `i` on state (a, b, c, d) for a given chunk. -/
def md5Round (chunk : List Nat) (st : Nat × Nat × Nat × Nat) (i : Nat) :
    Nat × Nat × Nat × Nat :=
  let (a, b, c, d) := st
  let fg : Nat × Nat :=
    if i < 16 then ((b &&& c) ||| ((b ^^^ 4294967295) &&& d), i)
    else if i < 32 then ((d &&& b) ||| ((d ^^^ 4294967295) &&& c), (5 * i + 1) % 16)
    else if i < 48 then (b ^^^ c ^^^ d, (3 * i + 5) % 16)
    else (c ^^^ (b ||| (d ^^^ 4294967295)), (7 * i) % 16)
  let f := (fg.1 + a + md5K.getD i 0 + md5Word chunk fg.2) % 4294967296
  (d, (b + rotl32 f (md5S.getD i 0)) % 4294967296, b, c)

/-- Process one 64-byte chunk: 64 rounds, then add into the state. -/
def md5Chunk (chunk : List Nat) (st : Nat × Nat × Nat × Nat) :
    Nat × Nat × Nat × Nat :=
  let (a0, b0, c0, d0) := st
  let (a, b, c, d) := (List.range 64).foldl (md5Round chunk) st
  ((a0 + a) % 4294967296, (b0 + b) % 4294967296,
   (c0 + c) % 4294967296, (d0 + d) % 4294967296)

/-- Fold the MD5 compression over all 64-byte chunks.  The fuel is an
upper bound on the chunk count (the padded length works); each step
consumes 64 bytes. -/
def md5ChunksF : Nat → List Nat → Nat × Nat × Nat × Nat → Nat × Nat × Nat × Nat
  | 0, _, st => st
  | _ + 1, [], st => st
  | f + 1, b :: bs, st =>
    md5ChunksF f ((b :: bs).drop 64) (md5Chunk ((b :: bs).take 64) st)

/-- Little-endian bytes of a 32-bit word. -/
def leBytes4 (n : Nat) : List Nat :=
  [n % 256, n / 256 % 256, n / 65536 % 256, n / 16777216 % 256]

/-- MD5 padding: 0x80, zeros to 56 mod 64, then the bit length as a
little-endian 64-bit number. -/
def md5Pad (msg : List Nat) : List Nat :=
  msg ++ 0x80 :: List.replicate ((119 - msg.length % 64) % 64) 0
    ++ (leBytes4 (msg.length * 8 % 4294967296)
        ++ leBytes4 (msg.length * 8 / 4294967296 % 4294967296))

/-- Digest `md5.Sum`: the 16 digest bytes of a message. -/
def md5Sum (msg : List Nat) : List Nat :=
  let padded := md5Pad msg
  let (a, b, c, d) :=
    md5ChunksF padded.length padded (1732584193, 4023233417, 2562383102, 271733878)
  leBytes4 a ++ leBytes4 b ++ leBytes4 c ++ leBytes4 d

/-- One lowercase hex digit. -/
def hexDigit (n : Nat) : Char :=
  Char.ofNat (if n < 10 then 48 + n else 87 + n)

/-- Rendering `fmt.Sprintf("%x", digest)`: two lowercase hex digits per byte. -/
def hexOfBytes (bs : List Nat) : String :=
  String.mk ((bs.map fun b => [hexDigit (b / 16), hexDigit (b % 16)]).flatten)

/-- The cache entry file name (main.go lines 129-130):
`fmt.Sprintf("%x", md5.Sum([]byte(strings.Join(args, " ")))) + ".ts"`. -/
def cacheFilename (args : List String) : String :=
  hexOfBytes (md5Sum (utf8Bytes (String.intercalate " " args))) ++ ".ts"

/-! ## Specification-side helper functions -/

/-- Well-formedness of a record for the codec round trip: a non-negative
elapsed time in `int64`/msgpack-unsigned range, a tag in the positive
fixint range (the program only ever uses 1, 2 and 127), and a payload
within the bin32 limit. -/
def wfRecord (r : BufRecord) : Prop :=
  0 ≤ r.T ∧ r.T < 18446744073709551616 ∧ 0 ≤ r.Id ∧ r.Id ≤ 127
    ∧ r.Buf.length < 4294967296

instance (r : BufRecord) : Decidable (wfRecord r) := by
  unfold wfRecord; infer_instance

/-- Additionally, a record tagged 127 must have a payload byte, or the
replay loop would evaluate `buf[0]` on an empty slice. -/
def wfReplay (r : BufRecord) : Prop :=
  wfRecord r ∧ (r.Id = 127 → r.Buf ≠ [])

instance (r : BufRecord) : Decidable (wfReplay r) := by
  unfold wfReplay; infer_instance

/-- The concatenated payloads of the records carrying a given tag, in
order: what replay writes to the corresponding live stream. -/
def streamOf (tag : Int) (rs : List BufRecord) : List Nat :=
  ((rs.filter fun r => decide (r.Id = tag)).map BufRecord.Buf).flatten

/-- The exit code after processing a record list starting from `c`: each
record tagged 127 replaces it with its first payload byte. -/
def lastExitFrom (c : Int) (rs : List BufRecord) : Int :=
  rs.foldl (fun acc r => if r.Id = 127 then ((r.Buf.headD 0 : Nat) : Int) else acc) c

/-! ## Byte-level round-trip lemmas -/

theorem beBytes_length (k n : Nat) : (beBytes k n).length = k := by
  induction k generalizing n with
  | zero => rfl
  | succ k ih => simp [beBytes, ih]

theorem readN_append (bs rest : List Nat) :
    readN bs.length (bs ++ rest) = some (bs, rest) := by
  induction bs with
  | nil => rfl
  | cons b bs ih => simp [readN, ih]

theorem foldl_beBytes (k n acc : Nat) :
    (beBytes k n).foldl (fun a b => a * 256 + b) acc
      = acc * 256 ^ k + n % 256 ^ k := by
  induction k generalizing n acc with
  | zero => simp [beBytes, Nat.mod_one]
  | succ k ih =>
    have hdvd : (256 : Nat) ∣ 256 ^ (k + 1) := dvd_pow_self 256 (Nat.succ_ne_zero k)
    have hdiv : n / 256 % 256 ^ k = n % 256 ^ (k + 1) / 256 := by
      rw [pow_succ, mul_comm, Nat.mod_mul_right_div_self]
    have hmod : n % 256 = n % 256 ^ (k + 1) % 256 := (Nat.mod_mod_of_dvd n hdvd).symm
    calc (beBytes (k + 1) n).foldl (fun a b => a * 256 + b) acc
        = (beBytes k (n / 256)).foldl (fun a b => a * 256 + b) acc * 256 + n % 256 := by
          simp [beBytes, List.foldl_append]
      _ = (acc * 256 ^ k + n % 256 ^ (k + 1) / 256) * 256 + n % 256 ^ (k + 1) % 256 := by
          rw [ih, hdiv, hmod]
      _ = acc * 256 ^ (k + 1) + n % 256 ^ (k + 1) := by
          rw [Nat.add_mul, Nat.mul_assoc, ← pow_succ, Nat.add_assoc, Nat.div_add_mod']

theorem readBE_beBytes (k n : Nat) (h : n < 256 ^ k) (rest : List Nat) :
    readBE k (beBytes k n ++ rest) = some (n, rest) := by
  have hr := readN_append (beBytes k n) rest
  rw [beBytes_length] at hr
  rw [readBE, hr]
  simp [foldl_beBytes, Nat.mod_eq_of_lt h]

/-! ## Scalar round-trip lemmas -/

theorem decodeValueF_fixint (f m : Nat) (h : m ≤ 127) (rest : List Nat) :
    decodeValueF (f + 1) (m :: rest) = some (.i8 (Int.ofNat m), rest) := by
  simp [decodeValueF, h]

theorem decodeValueF_encInt (f : Nat) (n : Int) (h0 : 0 ≤ n)
    (h1 : n < 18446744073709551616) (rest : List Nat) :
    decodeValueF (f + 1) (encInt n ++ rest) = some (goIntVal n, rest) := by
  rw [encInt, if_pos h0, goIntVal, if_pos h0]
  have hn : (n.toNat : Int) = n := Int.toNat_of_nonneg h0
  rw [encUint]
  by_cases c1 : n.toNat ≤ 0x7f
  · rw [if_pos c1]
    have : n ≤ 0x7f := by omega
    rw [if_pos this]
    simp [decodeValueF_fixint f _ c1, hn]
  · rw [if_neg c1]
    have : ¬ n ≤ 0x7f := by omega
    rw [if_neg this]
    by_cases c2 : n.toNat ≤ 0xff
    · rw [if_pos c2, if_pos (show n ≤ 0xff by omega)]
      simp only [List.cons_append]
      simp [decodeValueF, readBE_beBytes 1 n.toNat (by omega) rest]
    · rw [if_neg c2, if_neg (show ¬ n ≤ 0xff by omega)]
      by_cases c3 : n.toNat ≤ 0xffff
      · rw [if_pos c3, if_pos (show n ≤ 0xffff by omega)]
        simp only [List.cons_append]
        simp [decodeValueF, readBE_beBytes 2 n.toNat (by omega) rest]
      · rw [if_neg c3, if_neg (show ¬ n ≤ 0xffff by omega)]
        by_cases c4 : n.toNat ≤ 0xffffffff
        · rw [if_pos c4, if_pos (show n ≤ 0xffffffff by omega)]
          simp only [List.cons_append]
          simp [decodeValueF, readBE_beBytes 4 n.toNat (by omega) rest]
        · rw [if_neg c4, if_neg (show ¬ n ≤ 0xffffffff by omega)]
          simp only [List.cons_append]
          simp [decodeValueF, readBE_beBytes 8 n.toNat (by omega) rest]

theorem decodeValueF_encBytes (f : Nat) (bs : List Nat)
    (h : bs.length < 4294967296) (rest : List Nat) :
    decodeValueF (f + 1) (encBytes bs ++ rest) = some (.bin bs, rest) := by
  rw [encBytes]
  by_cases c1 : bs.length ≤ 0xff
  · rw [if_pos c1]
    simp only [List.cons_append, List.append_assoc]
    simp [decodeValueF, readBE_beBytes 1 bs.length (by omega) (bs ++ rest),
      readN_append]
  · rw [if_neg c1]
    by_cases c2 : bs.length ≤ 0xffff
    · rw [if_pos c2]
      simp only [List.cons_append, List.append_assoc]
      simp [decodeValueF, readBE_beBytes 2 bs.length (by omega) (bs ++ rest),
        readN_append]
    · rw [if_neg c2]
      simp only [List.cons_append, List.append_assoc]
      simp [decodeValueF, readBE_beBytes 4 bs.length (by omega) (bs ++ rest),
        readN_append]

/-! ## Whole-record round trip -/

theorem readKey_keyT (bs : List Nat) :
    readKey (0xa1 :: 0x54 :: bs) = some ("T", bs) := by
  have h : stringOfBytes [0x54] = "T" := by decide
  simp [readKey, readN, h]

theorem readKey_keyId (bs : List Nat) :
    readKey (0xa2 :: 0x49 :: 0x64 :: bs) = some ("Id", bs) := by
  have h : stringOfBytes [0x49, 0x64] = "Id" := by decide
  simp [readKey, readN, h]

theorem readKey_keyBuf (bs : List Nat) :
    readKey (0xa3 :: 0x42 :: 0x75 :: 0x66 :: bs) = some ("Buf", bs) := by
  have h : stringOfBytes [0x42, 0x75, 0x66] = "Buf" := by decide
  simp [readKey, readN, h]

theorem decodeValueF_encodeRecord (f : Nat) (r : BufRecord) (rest : List Nat)
    (hT0 : 0 ≤ r.T) (hT1 : r.T < 18446744073709551616)
    (hId0 : 0 ≤ r.Id) (hId1 : r.Id ≤ 127) (hB : r.Buf.length < 4294967296) :
    decodeValueF (f + 5) (encodeRecord r ++ rest) = some (recValue r, rest) := by
  have hId2 : r.Id < 18446744073709551616 := by omega
  rw [encodeRecord]
  simp only [List.cons_append, List.append_assoc, List.nil_append]
  rw [decodeValueF]
  norm_num
  rw [decodeKVsF, readKey_keyT]
  dsimp only
  rw [decodeValueF_encInt (f + 2) r.T hT0 hT1 _]
  dsimp only
  rw [decodeKVsF, readKey_keyId]
  dsimp only
  rw [decodeValueF_encInt (f + 1) r.Id hId0 hId2 _]
  dsimp only
  rw [decodeKVsF, readKey_keyBuf]
  dsimp only
  rw [decodeValueF_encBytes f r.Buf hB rest]
  dsimp only
  rw [decodeKVsF]
  rfl

theorem decodeValue_encodeRecord (r : BufRecord) (rest : List Nat)
    (hT0 : 0 ≤ r.T) (hT1 : r.T < 18446744073709551616)
    (hId0 : 0 ≤ r.Id) (hId1 : r.Id ≤ 127) (hB : r.Buf.length < 4294967296) :
    decodeValue (encodeRecord r ++ rest) = some (recValue r, rest) := by
  have hlen : 10 ≤ (encodeRecord r ++ rest).length := by
    simp [encodeRecord]
    omega
  obtain ⟨f, hf⟩ : ∃ f, (encodeRecord r ++ rest).length + 1 = f + 5 :=
    ⟨(encodeRecord r ++ rest).length - 4, by omega⟩
  rw [decodeValue, hf, decodeValueF_encodeRecord f r rest hT0 hT1 hId0 hId1 hB]

theorem goIntVal_small (n : Int) (h0 : 0 ≤ n) (h1 : n ≤ 127) :
    goIntVal n = .i8 n := by
  rw [goIntVal, if_pos h0, if_pos h1]

theorem DurationOf_goIntVal (n : Int) : DurationOf (some (goIntVal n)) = n := by
  rw [goIntVal]
  split_ifs with h0 h1 h2 h3 h4 h5 h6 h7 <;>
    simp [DurationOf] <;> omega

theorem replayStep_recValue (r : BufRecord) (hId0 : 0 ≤ r.Id) (hId1 : r.Id ≤ 127) :
    replayStep (recValue r) = some (r.Id, r.Buf, r.T) := by
  rw [recValue, goIntVal_small r.Id hId0 hId1]
  simp [replayStep, goMapGet, DurationOf_goIntVal]

/-! ## Loop-level lemmas -/

theorem encodeRecords_nil : encodeRecords [] = [] := rfl

theorem encodeRecords_cons (r : BufRecord) (rs : List BufRecord) :
    encodeRecords (r :: rs) = encodeRecord r ++ encodeRecords rs := by
  simp [encodeRecords]

theorem encodeRecord_length_pos (r : BufRecord) : 0 < (encodeRecord r).length := by
  simp [encodeRecord]

theorem length_le_encodeRecords (rs : List BufRecord) :
    rs.length ≤ (encodeRecords rs).length := by
  induction rs with
  | nil => simp [encodeRecords]
  | cons r rs ih =>
    rw [encodeRecords_cons]
    have := encodeRecord_length_pos r
    simp only [List.length_append, List.length_cons]
    omega

theorem streamOf_cons (tag : Int) (r : BufRecord) (rs : List BufRecord) :
    streamOf tag (r :: rs)
      = (if r.Id = tag then r.Buf else []) ++ streamOf tag rs := by
  by_cases h : r.Id = tag <;> simp [streamOf, List.filter_cons, h]

theorem lastExitFrom_cons (c : Int) (r : BufRecord) (rs : List BufRecord) :
    lastExitFrom c (r :: rs)
      = lastExitFrom (if r.Id = 127 then ((r.Buf.headD 0 : Nat) : Int) else c) rs := rfl

theorem replayLoop_spec (rs : List BufRecord) (junk : List Nat)
    (h : ∀ r ∈ rs, wfReplay r) (hj : decodeValue junk = none) :
    ∀ fuel, rs.length < fuel → ∀ out err c,
      replayLoop fuel (encodeRecords rs ++ junk) out err c
        = .exit (out ++ streamOf 1 rs) (err ++ streamOf 2 rs) (lastExitFrom c rs) := by
  induction rs with
  | nil =>
    intro fuel hf out err c
    obtain ⟨f, rfl⟩ : ∃ f, fuel = f + 1 := ⟨fuel - 1, by omega⟩
    rw [encodeRecords_nil, List.nil_append, replayLoop, hj]
    simp [streamOf, lastExitFrom]
  | cons r rs ih =>
    intro fuel hf out err c
    obtain ⟨f, rfl⟩ : ∃ f, fuel = f + 1 := ⟨fuel - 1, by omega⟩
    obtain ⟨⟨hT0, hT1, hId0, hId1, hB⟩, hBuf⟩ := h r (List.mem_cons_self r rs)
    have hrest : ∀ x ∈ rs, wfReplay x := fun x hx => h x (List.mem_cons_of_mem r hx)
    have hflen : rs.length < f := by simpa using hf
    rw [encodeRecords_cons, List.append_assoc, replayLoop,
      decodeValue_encodeRecord r _ hT0 hT1 hId0 hId1 hB]
    dsimp only
    rw [replayStep_recValue r hId0 hId1]
    dsimp only
    rw [streamOf_cons, streamOf_cons, lastExitFrom_cons]
    by_cases h1 : r.Id = 1
    · rw [if_pos h1, if_pos (show r.Id = 1 from h1),
        if_neg (show ¬ r.Id = 2 by omega), if_neg (show ¬ r.Id = 127 by omega),
        ih hrest f hflen (out ++ r.Buf) err c]
      simp
    · rw [if_neg h1, if_neg (show ¬ r.Id = 1 from h1)]
      by_cases h2 : r.Id = 2
      · rw [if_pos h2, if_pos (show r.Id = 2 from h2),
          if_neg (show ¬ r.Id = 127 by omega),
          ih hrest f hflen out (err ++ r.Buf) c]
        simp
      · rw [if_neg h2, if_neg (show ¬ r.Id = 2 from h2)]
        by_cases h127 : r.Id = 127
        · obtain ⟨b, t, hbt⟩ := List.exists_cons_of_ne_nil (hBuf h127)
          rw [if_pos h127, if_pos (show r.Id = 127 from h127), hbt]
          dsimp only
          rw [ih hrest f hflen out err (Int.ofNat b)]
          simp [hbt]
        · rw [if_neg h127, if_neg (show ¬ r.Id = 127 from h127),
            ih hrest f hflen out err c]
          simp

theorem replay_spec (rs : List BufRecord) (junk : List Nat)
    (h : ∀ r ∈ rs, wfReplay r) (hj : decodeValue junk = none) :
    replay (encodeRecords rs ++ junk)
      = .exit (streamOf 1 rs) (streamOf 2 rs) (lastExitFrom 0 rs) := by
  have hlen : rs.length < (encodeRecords rs ++ junk).length + 1 := by
    have := length_le_encodeRecords rs
    simp only [List.length_append]
    omega
  rw [replay, replayLoop_spec rs junk h hj ((encodeRecords rs ++ junk).length + 1) hlen [] [] 0]
  simp

theorem decodeRecordsLoop_spec (rs : List BufRecord) (junk : List Nat)
    (h : ∀ r ∈ rs, wfRecord r) (hj : decodeValue junk = none) :
    ∀ fuel, rs.length < fuel → ∀ acc,
      decodeRecordsLoop fuel (encodeRecords rs ++ junk) acc
        = some (acc.reverse ++ rs) := by
  induction rs with
  | nil =>
    intro fuel hf acc
    obtain ⟨f, rfl⟩ : ∃ f, fuel = f + 1 := ⟨fuel - 1, by omega⟩
    rw [encodeRecords_nil, List.nil_append, decodeRecordsLoop, hj]
    simp
  | cons r rs ih =>
    intro fuel hf acc
    obtain ⟨f, rfl⟩ : ∃ f, fuel = f + 1 := ⟨fuel - 1, by omega⟩
    obtain ⟨hT0, hT1, hId0, hId1, hB⟩ := h r (List.mem_cons_self r rs)
    have hrest : ∀ x ∈ rs, wfRecord x := fun x hx => h x (List.mem_cons_of_mem r hx)
    have hflen : rs.length < f := by simpa using hf
    rw [encodeRecords_cons, List.append_assoc, decodeRecordsLoop,
      decodeValue_encodeRecord r _ hT0 hT1 hId0 hId1 hB]
    dsimp only
    rw [replayStep_recValue r hId0 hId1]
    dsimp only
    rw [ih hrest f hflen]
    simp

theorem decodeRecords_spec (rs : List BufRecord) (h : ∀ r ∈ rs, wfRecord r) :
    decodeRecords (encodeRecords rs) = some rs := by
  have hlen : rs.length < (encodeRecords rs).length + 1 := by
    have := length_le_encodeRecords rs
    omega
  have := decodeRecordsLoop_spec rs [] h rfl ((encodeRecords rs).length + 1)
    (by simpa using hlen) []
  simpa using this

/-! ## plex lemmas -/

theorem plexTrace_spec (rs : List BufRecord) (e : BufRecord) (extra : List BufRecord)
    (h : ∀ r ∈ rs, r.Id ≠ 127) (he : e.Id = 127) :
    plexTrace (rs ++ e :: extra)
      = rs.map PlexEvent.encode ++ [.encode e, .signal] := by
  induction rs with
  | nil => simp [plexTrace, he]
  | cons r rs ih =>
    have hr : r.Id ≠ 127 := h r (List.mem_cons_self r rs)
    have hrest : ∀ x ∈ rs, x.Id ≠ 127 := fun x hx => h x (List.mem_cons_of_mem r hx)
    simp [plexTrace, hr, ih hrest]

theorem plexEncoded_spec (rs : List BufRecord) (e : BufRecord) (extra : List BufRecord)
    (h : ∀ r ∈ rs, r.Id ≠ 127) (he : e.Id = 127) :
    plexEncoded (rs ++ e :: extra) = rs ++ [e] := by
  rw [plexEncoded, plexTrace_spec rs e extra h he]
  simp only [List.filterMap_append, List.filterMap_map]
  have hc : ((fun e => match e with
      | PlexEvent.encode r => some r
      | PlexEvent.signal => none) ∘ PlexEvent.encode)
      = fun r : BufRecord => some r := rfl
  rw [hc, List.filterMap_some]
  rfl

theorem streamOf_append (tag : Int) (l1 l2 : List BufRecord) :
    streamOf tag (l1 ++ l2) = streamOf tag l1 ++ streamOf tag l2 := by
  simp [streamOf, List.filter_append]

theorem lastExitFrom_append (c : Int) (l1 l2 : List BufRecord) :
    lastExitFrom c (l1 ++ l2) = lastExitFrom (lastExitFrom c l1) l2 :=
  List.foldl_append ..

/-- C1: for every finite record sequence ending in exactly one ExitStatus
record — StdOut/StdErr records (tags 1 and 2) with elapsed times in
0..10^9 milliseconds and payload bytes 0-255, followed by one record
tagged 127 — marshalling the records one by one and decoding the
resulting byte stream yields back the identical sequence of stream tags,
elapsed-time values and payload bytes. -/
theorem C1_roundtrip (body : List BufRecord) (e : BufRecord)
    (hb : ∀ r ∈ body, 0 ≤ r.T ∧ r.T ≤ 1000000000 ∧ (r.Id = 1 ∨ r.Id = 2)
        ∧ (∀ b ∈ r.Buf, b < 256) ∧ r.Buf.length < 4294967296)
    (he : e.Id = 127 ∧ 0 ≤ e.T ∧ e.T ≤ 1000000000
        ∧ (∀ b ∈ e.Buf, b < 256) ∧ e.Buf.length < 4294967296) :
    decodeRecords (encodeRecords (body ++ [e])) = some (body ++ [e]) := by
  apply decodeRecords_spec
  intro r hr
  rcases List.mem_append.1 hr with h | h
  · obtain ⟨h1, h2, h3, _, h5⟩ := hb r h
    exact ⟨h1, by omega, by rcases h3 with h | h <;> omega,
      by rcases h3 with h | h <;> omega, h5⟩
  · obtain rfl : r = e := by simpa using h
    obtain ⟨h1, h2, h3, _, h5⟩ := he
    exact ⟨h2, by omega, by omega, by omega, h5⟩

theorem C1_roundtrip_witness :
    (∀ r ∈ [(⟨1000000000, 1, [0, 255]⟩ : BufRecord), ⟨5, 2, []⟩],
      0 ≤ r.T ∧ r.T ≤ 1000000000 ∧ (r.Id = 1 ∨ r.Id = 2)
        ∧ (∀ b ∈ r.Buf, b < 256) ∧ r.Buf.length < 4294967296)
    ∧ ((⟨0, 127, [255]⟩ : BufRecord).Id = 127 ∧ 0 ≤ (⟨0, 127, [255]⟩ : BufRecord).T
        ∧ (⟨0, 127, [255]⟩ : BufRecord).T ≤ 1000000000
        ∧ (∀ b ∈ (⟨0, 127, [255]⟩ : BufRecord).Buf, b < 256)
        ∧ (⟨0, 127, [255]⟩ : BufRecord).Buf.length < 4294967296)
    ∧ decodeRecords
        (encodeRecords ([⟨1000000000, 1, [0, 255]⟩, ⟨5, 2, []⟩] ++ [⟨0, 127, [255]⟩]))
        = some ([⟨1000000000, 1, [0, 255]⟩, ⟨5, 2, []⟩] ++ [⟨0, 127, [255]⟩]) :=
  ⟨by decide, by decide, C1_roundtrip _ _ (by decide) (by decide)⟩

/-- C2: the consumer `plex`, fed the arrival-ordered channel content —
records tagged 1 or 2, then the terminal record tagged 127 (and whatever
might come later) — encodes exactly the pre-terminal records in arrival
order followed by the one terminal record, then signals the completion
event and stops: nothing is encoded after the ExitStatus record. -/
theorem C2_plex_invariant (chunks : List BufRecord) (e : BufRecord)
    (extra : List BufRecord)
    (hc : ∀ r ∈ chunks, r.Id = 1 ∨ r.Id = 2) (he : e.Id = 127) :
    plexTrace (chunks ++ e :: extra)
        = chunks.map PlexEvent.encode ++ [.encode e, .signal]
      ∧ plexEncoded (chunks ++ e :: extra) = chunks ++ [e] := by
  have hne : ∀ r ∈ chunks, r.Id ≠ 127 := fun r hr => by
    rcases hc r hr with h | h <;> omega
  exact ⟨plexTrace_spec chunks e extra hne he, plexEncoded_spec chunks e extra hne he⟩

theorem C2_plex_invariant_witness :
    (∀ r ∈ [(⟨0, 1, [104]⟩ : BufRecord)], r.Id = 1 ∨ r.Id = 2)
    ∧ (⟨0, 127, [0]⟩ : BufRecord).Id = 127
    ∧ (plexTrace ([⟨0, 1, [104]⟩] ++ ⟨0, 127, [0]⟩ :: [⟨0, 2, [5]⟩])
        = [⟨0, 1, [104]⟩].map PlexEvent.encode ++ [.encode ⟨0, 127, [0]⟩, .signal]
      ∧ plexEncoded ([⟨0, 1, [104]⟩] ++ ⟨0, 127, [0]⟩ :: [⟨0, 2, [5]⟩])
        = [⟨0, 1, [104]⟩] ++ [⟨0, 127, [0]⟩]) :=
  ⟨by decide, by decide, C2_plex_invariant _ _ _ (by decide) (by decide)⟩

/-- C3: after the child terminates, the exit status is 0 when `Wait`
reported no error and the platform status for an `*exec.ExitError`; the
session then emits the terminal record `{T: 0, Id: 127, Buf: [exitCode]}`
on the channel, blocks on the completion event, and only then leaves with
that exit code. -/
theorem C3_capture_tail (w : WaitResult) (keepNeg : Bool)
    (h0 : 0 ≤ exitCodeOf w) (h1 : exitCodeOf w < 256) :
    exitCodeOf .ok = 0 ∧ (∀ s : Int, exitCodeOf (.exitError s) = s)
      ∧ mainTail w keepNeg
        = (if removesEntry w keepNeg then [MainEvent.removeEntry] else [])
          ++ [.sendRecord ⟨0, 127, [(exitCodeOf w).toNat]⟩, .awaitFinished,
              .returnCode (exitCodeOf w)] := by
  refine ⟨rfl, fun s => rfl, ?_⟩
  rw [mainTail, exitRecord, Int.emod_eq_of_lt h0 h1]

theorem C3_capture_tail_witness :
    (0 ≤ exitCodeOf (.exitError 3) ∧ exitCodeOf (.exitError 3) < 256)
    ∧ (exitCodeOf .ok = 0 ∧ (∀ s : Int, exitCodeOf (.exitError s) = s)
      ∧ mainTail (.exitError 3) false
        = (if removesEntry (.exitError 3) false then [MainEvent.removeEntry] else [])
          ++ [.sendRecord ⟨0, 127, [(exitCodeOf (.exitError 3)).toNat]⟩,
              .awaitFinished, .returnCode (exitCodeOf (.exitError 3))]) :=
  ⟨⟨by decide, by decide⟩, C3_capture_tail (.exitError 3) false (by decide) (by decide)⟩

/-- C4 as stated is false on the code: the replay loop does not stop at an
ExitStatus record.  On this stream, where a StdOut record follows the
ExitStatus record, replay decodes the later record and emits its payload
byte 65 to stdout. -/
theorem C4_counterexample :
    replay (encodeRecords [⟨0, 127, [5]⟩, ⟨0, 1, [65]⟩]) = .exit [65] [] 5
      ∧ ([65] : List Nat) ≠ [] :=
  ⟨by decide, by decide⟩

/-- C4 amended: during replay each decoded StdOut payload is written to
live stdout and each StdErr payload to live stderr; a decoded ExitStatus
record sets the exit code to its first payload byte but the loop
continues, stopping only at a decode failure (in particular end of
stream), so the exit code returned is the one from the last ExitStatus
record decoded. -/
theorem C4_amended (rs : List BufRecord) (h : ∀ r ∈ rs, wfReplay r) :
    replay (encodeRecords rs)
      = .exit (streamOf 1 rs) (streamOf 2 rs) (lastExitFrom 0 rs) := by
  have := replay_spec rs [] h rfl
  simpa using this

theorem C4_amended_witness :
    (∀ r ∈ [(⟨0, 1, [72]⟩ : BufRecord), ⟨0, 127, [3]⟩, ⟨0, 2, [33]⟩], wfReplay r)
    ∧ replay (encodeRecords [⟨0, 1, [72]⟩, ⟨0, 127, [3]⟩, ⟨0, 2, [33]⟩])
      = .exit (streamOf 1 [⟨0, 1, [72]⟩, ⟨0, 127, [3]⟩, ⟨0, 2, [33]⟩])
          (streamOf 2 [⟨0, 1, [72]⟩, ⟨0, 127, [3]⟩, ⟨0, 2, [33]⟩])
          (lastExitFrom 0 [⟨0, 1, [72]⟩, ⟨0, 127, [3]⟩, ⟨0, 2, [33]⟩]) :=
  ⟨by decide, C4_amended _ (by decide)⟩

/-- C6: a lookup is fresh exactly when the stat succeeded and either the
ttl is the -1 sentinel or the entry age in whole seconds is at most the
ttl; for a non-sentinel ttl, age = ttl is fresh and age = ttl + 1 is
stale. -/
theorem C6_ttl_boundary (ttl : Int) (h : ttl ≠ -1) :
    (∀ (statOk : Bool) (t a : Int),
        (cacheFresh statOk t a = true ↔ statOk = true ∧ (t = -1 ∨ a ≤ t)))
      ∧ cacheFresh true ttl ttl = true
      ∧ cacheFresh true ttl (ttl + 1) = false := by
  refine ⟨?_, ?_, ?_⟩
  · intro s t a
    simp [cacheFresh]
  · simp [cacheFresh]
  · simp [cacheFresh, h]

theorem C6_ttl_boundary_witness :
    (10 : Int) ≠ -1
    ∧ ((∀ (statOk : Bool) (t a : Int),
        (cacheFresh statOk t a = true ↔ statOk = true ∧ (t = -1 ∨ a ≤ t)))
      ∧ cacheFresh true 10 10 = true
      ∧ cacheFresh true 10 (10 + 1) = false) :=
  ⟨by decide, C6_ttl_boundary 10 (by decide)⟩

/-- C7: when the child exits with a non-zero code, the entry is removed
with retention disabled (the default) and kept with it enabled; a kept
entry — the plex-encoded channel content ending in the terminal record —
replays to exactly the captured streams and that same non-zero exit
code. -/
theorem C7_negative_retention (c : Int) (h0 : 0 < c) (h1 : c < 256)
    (chunks : List BufRecord)
    (hc : ∀ r ∈ chunks, (r.Id = 1 ∨ r.Id = 2) ∧ wfRecord r) :
    removesEntry (.exitError c) false = true
      ∧ removesEntry (.exitError c) true = false
      ∧ replay (plexBytes (chunks ++ [exitRecord (.exitError c)]))
          = .exit (streamOf 1 chunks) (streamOf 2 chunks) c := by
  have hne : ∀ r ∈ chunks, r.Id ≠ 127 := fun r hr => by
    rcases (hc r hr).1 with h | h <;> omega
  have hco : exitCodeOf (.exitError c) = c := rfl
  have hmod : exitCodeOf (.exitError c) % 256 = c := by
    rw [hco]; exact Int.emod_eq_of_lt (le_of_lt h0) h1
  refine ⟨rfl, rfl, ?_⟩
  rw [plexBytes, plexEncoded_spec chunks _ [] hne rfl]
  have hwf : ∀ r ∈ chunks ++ [exitRecord (.exitError c)], wfReplay r := by
    intro r hr
    rcases List.mem_append.1 hr with h | h
    · exact ⟨(hc r h).2, fun h127 => absurd h127 (hne r h)⟩
    · obtain rfl : r = exitRecord (.exitError c) := by simpa using h
      refine ⟨⟨?_, ?_, ?_, ?_, ?_⟩, fun _ => ?_⟩ <;> norm_num [exitRecord]
  have := replay_spec (chunks ++ [exitRecord (.exitError c)]) [] hwf rfl
  rw [List.append_nil] at this
  rw [this, streamOf_append, streamOf_append, lastExitFrom_append]
  have hs1 : streamOf 1 [exitRecord (.exitError c)] = [] := by
    simp [streamOf, exitRecord]
  have hs2 : streamOf 2 [exitRecord (.exitError c)] = [] := by
    simp [streamOf, exitRecord]
  have hlast : lastExitFrom (lastExitFrom 0 chunks) [exitRecord (.exitError c)] = c := by
    rw [lastExitFrom_cons]
    simp only [exitRecord, if_pos rfl]
    rw [lastExitFrom]
    simp only [List.foldl_nil, List.headD_cons]
    rw [Int.toNat_of_nonneg (by rw [hmod]; exact le_of_lt h0), hmod]
    simp
  rw [hs1, hs2, hlast]
  simp

theorem C7_negative_retention_witness :
    ((0 : Int) < 3 ∧ (3 : Int) < 256
      ∧ ∀ r ∈ [(⟨0, 1, [104]⟩ : BufRecord)], (r.Id = 1 ∨ r.Id = 2) ∧ wfRecord r)
    ∧ (removesEntry (.exitError 3) false = true
      ∧ removesEntry (.exitError 3) true = false
      ∧ replay (plexBytes ([(⟨0, 1, [104]⟩ : BufRecord)] ++ [exitRecord (.exitError 3)]))
          = .exit (streamOf 1 [(⟨0, 1, [104]⟩ : BufRecord)])
              (streamOf 2 [(⟨0, 1, [104]⟩ : BufRecord)]) 3) :=
  ⟨⟨by decide, by decide, by decide⟩,
    C7_negative_retention 3 (by decide) (by decide) _ (by decide)⟩

/-- C8 as stated is false on the code: the start-failure branch does not
return, so after removing the entry and reporting the failure the session
still runs the consumer and encodes one Record — the terminal ExitStatus
record with payload byte 0 — before leaving. -/
theorem C8_counterexample :
    captureOnStartFailure.encoded = [⟨0, 127, [0]⟩]
      ∧ captureOnStartFailure.encoded ≠ [] :=
  ⟨by decide, by decide⟩

/-- C8 amended: on a start failure the session discards the just-created
cache entry and reports the failure to its caller, captures no output
records, but still encodes exactly one Record — the terminal ExitStatus
record with exit code 0 — into the already-discarded sink, and returns
exit code 0. -/
theorem C8_amended :
    captureOnStartFailure.entryRemoved = true
      ∧ captureOnStartFailure.failureReported = true
      ∧ captureOnStartFailure.encoded = [exitRecord .otherError]
      ∧ exitRecord .otherError = ⟨0, 127, [0]⟩
      ∧ captureOnStartFailure.returned = 0 := by
  decide

/-- C9: the claim fails on the replay side.  With a fresh entry whose
file cannot be opened, the program does not fall back to passthrough
execution: `gzip.NewReader` fails on the nil file, leaving a nil
`*gzip.Reader` whose first use is a nil-pointer dereference, re-raised by
`handleExit` — a crash.  (On the capture side a create failure does
degrade to a cache-less passthrough run.) -/
theorem C9_fs_failure :
    replaySession false [] = .crashed
      ∧ (∀ bs : List Nat, replaySession false bs ≠ .passthroughNoCache)
      ∧ captureSessionFs false = .passthroughNoCache :=
  ⟨rfl, fun _ h => by simp [replaySession] at h, rfl⟩

/-- C10: the cache key is the md5 hex digest of the argument list joined
with single spaces, so it is not injective on argument lists: the
distinct lists ["a b", "c"] and ["a", "b", "c"] join to the same string
and map to the same cache entry file name. -/
theorem C10_key_collision :
    cacheFilename ["a b", "c"] = cacheFilename ["a", "b", "c"]
      ∧ (["a b", "c"] : List String) ≠ ["a", "b", "c"] := by
  constructor
  · have h : String.intercalate " " ["a b", "c"]
        = String.intercalate " " ["a", "b", "c"] := by decide
    unfold cacheFilename
    rw [h]
  · decide

/-- Sanity check of the embedded MD5 against the RFC 1321 test suite. -/
theorem md5_rfc_vectors :
    hexOfBytes (md5Sum (utf8Bytes "")) = "d41d8cd98f00b204e9800998ecf8427e"
      ∧ hexOfBytes (md5Sum (utf8Bytes "abc")) = "900150983cd24fb0d6963f7d28e17f72" := by
  constructor <;> decide

end CmdCache

